import Mathlib

/-!
Shallow embedding of the IFRT sharding algebra from
`xla/python/ifrt/sharding.h`. The header in the repository declares the
abstract `Sharding` contract and its five variants
(`SingleDeviceSharding`, `OpaqueSharding`, `ConcreteSharding`,
`ConcreteEvenSharding`, `ShardingParamSharding`), their stored state and
factory signatures; the method bodies live in a translation unit that is
not part of the repository snapshot, so the operation bodies below are
modelled from the specification's algorithm descriptions, while the data
model (stored members, factory signatures, `has_static_shape` /
`has_dynamic_shape`) follows the header.
-/

namespace Ifrt

/-- Error kinds returned by sharding operations (absl status codes used by
the source: `InvalidArgument` and `Unimplemented`/unsupported-operation). -/
inductive ErrorKind where
  | invalidArgument
  | unsupportedOp
deriving DecidableEq

/-- Static shape: an ordered sequence of non-negative dimension sizes
(`xla::ifrt::Shape`). -/
structure Shape where
  dims : List Nat
deriving DecidableEq

/-- One dimension of a `DynamicShape`: either a known size or an unknown
size with an upper bound. -/
inductive DynDim where
  | fixedDim (size : Nat)
  | boundedDim (bound : Nat)
deriving DecidableEq

/-- Shape with possibly-unknown dimensions (`xla::ifrt::DynamicShape`). -/
structure DynamicShape where
  dims : List DynDim
deriving DecidableEq

/-- Rectangular sub-region of a global array: origin plus shape
(`xla::ifrt::IndexDomain`). -/
structure IndexDomain where
  origin : List Nat
  shape : Shape
deriving DecidableEq

/-- Devices are modelled by their ids; the sharding core only consumes
identity, order and multiplicity. -/
abbrev Device := Nat

/-- Ordered device list, duplicates allowed (`xla::ifrt::DeviceList`). -/
abbrev DeviceList := List Device

/-- Opaque memory-space tag with equality (`xla::ifrt::MemoryKind`,
an optional string; modelled by an optional id). -/
structure MemoryKind where
  kind : Option Nat
deriving DecidableEq

/-- Tiling descriptor (`xla::ifrt::ShardingParam`): per-dimension shard
counts, an axis permutation mapping device order to tile coordinates, and
a trailing replication factor. -/
structure ShardingParam where
  dimShards : List Nat
  permutation : List Nat
  replicationFactor : Nat
deriving DecidableEq

/-- The closed set of sharding variants declared in `sharding.h`. The
`concrete` case stores, as in the header, a sum of static/dynamic global
shape and a sum of static/dynamic shard-shape lists
(`std::variant<Shape, DynamicShape>` and
`std::variant<std::vector<Shape>, std::vector<DynamicShape>>`). -/
inductive ShardingI where
  | singleDevice (device : Device) (memoryKind : MemoryKind)
  | opaq (devices : DeviceList) (memoryKind : MemoryKind)
  | concrete (devices : DeviceList) (memoryKind : MemoryKind)
      (storedShape : Shape ⊕ DynamicShape)
      (storedShardShapes : List Shape ⊕ List DynamicShape)
  | concreteEven (devices : DeviceList) (memoryKind : MemoryKind)
      (shape shardShape : Shape)
  | shardingParamS (param : ShardingParam) (devices : DeviceList)
      (memoryKind : MemoryKind)
deriving DecidableEq

namespace ShardingI

/-- Device list accessor (`Sharding::devices()`). -/
def devices : ShardingI → DeviceList
  | .singleDevice d _ => [d]
  | .opaq ds _ => ds
  | .concrete ds _ _ _ => ds
  | .concreteEven ds _ _ _ => ds
  | .shardingParamS _ ds _ => ds

/-- Memory kind accessor (`Sharding::memory_kind()`). -/
def memory_kind : ShardingI → MemoryKind
  | .singleDevice _ mk => mk
  | .opaq _ mk => mk
  | .concrete _ mk _ _ => mk
  | .concreteEven _ mk _ _ => mk
  | .shardingParamS _ _ mk => mk

/-- Accessor `ConcreteSharding::has_dynamic_shape`: both stored variants
hold the dynamic alternative (header lines 175-179); false on every other
sharding variant. -/
def has_dynamic_shape : ShardingI → Bool
  | .concrete _ _ (.inr _) (.inr _) => true
  | _ => false

/-- Accessor `ConcreteSharding::has_static_shape`: both stored variants
hold the static alternative (header lines 181-185); false on every other
sharding variant. -/
def has_static_shape : ShardingI → Bool
  | .concrete _ _ (.inl _) (.inl _) => true
  | _ => false

/-- Constructed-instance invariant: what a valid factory invocation
guarantees. `ConcreteSharding` requires one shard shape per device in a
matching static/dynamic case (header REQUIRES comments),
`ConcreteEvenSharding` requires shard rank to equal global rank, and
`ShardingParamSharding` requires `product(dim_shards) * replication ==
devices.size()`. -/
def wf : ShardingI → Bool
  | .singleDevice _ _ => true
  | .opaq _ _ => true
  | .concrete ds _ (.inl _) (.inl l) => l.length == ds.length
  | .concrete ds _ (.inr _) (.inr l) => l.length == ds.length
  | .concrete _ _ _ _ => false
  | .concreteEven _ _ g s => s.dims.length == g.dims.length
  | .shardingParamS p ds _ => p.dimShards.prod * p.replicationFactor == ds.length

end ShardingI

/-- Ceiling division on naturals, `(a + b - 1) / b` as used for tile
counts and tile sizes. -/
def ceilDiv (a b : Nat) : Nat := (a + b - 1) / b

/-- Row-major unraveling of a flat index into a coordinate over `dims`
(last dimension fastest; out-of-range indices wrap component-wise). -/
def unravelIndex : List Nat → Nat → List Nat
  | [], _ => []
  | d :: rest, i => (i / rest.prod) % d :: unravelIndex rest (i % rest.prod)

/-- Pointwise truncated tile dims: at each dimension the tile extent `s`
is clipped to what remains of the global extent past the origin. -/
def truncDims : List Nat → List Nat → List Nat → List Nat
  | o :: os, s :: ss, g :: gs => min s (g - o) :: truncDims os ss gs
  | _, _, _ => []

/-- Position of `d` in a list (length of the list when absent); used to
read a permuted coordinate back in global-dimension order. -/
def posOf (d : Nat) : List Nat → Nat
  | [] => 0
  | p :: ps => if p = d then 0 else posOf d ps + 1

/-- Reordering of `xs` along a permutation: entry `k` is `xs[perm[k]]`. -/
def applyPerm (perm xs : List Nat) : List Nat :=
  perm.map (fun j => xs.getD j 0)

namespace ShardingParam

/-- Modelled from the spec: the tile coordinate of device `i`. The
device's linear index is unraveled row-major through the permuted
`dim_shards` with the trailing replication factor fastest (so devices
differing only in replica slot share a coordinate), and the components
are read back in global-dimension order through the permutation. -/
def tileCoord (p : ShardingParam) (i : Nat) : List Nat :=
  (List.range p.dimShards.length).map (fun d =>
    (unravelIndex (applyPerm p.permutation p.dimShards)
      (i / p.replicationFactor)).getD (posOf d p.permutation) 0)

end ShardingParam

/-- Component-wise product of a tile coordinate with per-dimension tile
sizes: the origin of the tile. -/
def mulCoord (c sizes : List Nat) : List Nat :=
  List.zipWith (fun a b => a * b) c sizes

/-- Tile sub-rectangle for coordinate `c` with per-dimension tile sizes
`sizes` against global dims `gdims`: origin `c * sizes` component-wise,
shape the tile sizes truncated at the global boundary. -/
def tileDomainFor (sizes gdims c : List Nat) : IndexDomain :=
  ⟨mulCoord c sizes, ⟨truncDims (mulCoord c sizes) sizes gdims⟩⟩

/-- Modelled from the spec: the sub-rectangle for a tile coordinate under
`ShardingParamSharding`. Per-dimension shard size is
`ceil(global / dim_shards)`, the origin is the coordinate times the shard
size, and the shape is the tile shape truncated at the global boundary. -/
def paramDomainOfCoord (p : ShardingParam) (g : Shape) (c : List Nat) : IndexDomain :=
  tileDomainFor (List.zipWith ceilDiv g.dims p.dimShards) g.dims c

/-- Modelled from the spec: the `IndexDomain` assigned to device `i` by a
`ShardingParamSharding` over global shape `g`. -/
def paramTileDomain (p : ShardingParam) (g : Shape) (i : Nat) : IndexDomain :=
  paramDomainOfCoord p g (p.tileCoord i)

/-- Modelled from the spec: the `IndexDomain` assigned to device `i` by a
`ConcreteEvenSharding`: each global dimension is divided into
`ceil(global / shard)` steps, device `i` takes the tile at row-major
flattened coordinate `i`, with origin `coordinate * shard` and the tile
shape truncated at the global boundary. -/
def evenTileDomain (g s : Shape) (i : Nat) : IndexDomain :=
  tileDomainFor s.dims g.dims (unravelIndex (List.zipWith ceilDiv g.dims s.dims) i)

namespace ShardingI

/-- Modelled from the spec: `Sharding::Disassemble(const Shape&)` for each
variant. `SingleDeviceSharding` returns the identity pair; `OpaqueSharding`
refuses with unsupported-operation; `ConcreteSharding` requires the stored
static shape to equal the argument and plays back the stored shard shapes;
`ConcreteEvenSharding` returns one copy of the stored shard shape per
device; `ShardingParamSharding` computes per-device tile shapes (rank must
match). Every returned sub-sharding is a `SingleDeviceSharding` over the
matching device with the same memory kind. -/
def Disassemble : ShardingI → Shape → Except ErrorKind (List (Shape × ShardingI))
  | .singleDevice d mk, sh => .ok [(sh, .singleDevice d mk)]
  | .opaq _ _, _ => .error .unsupportedOp
  | .concrete ds mk (.inl g) (.inl shards), sh =>
      if sh = g then
        .ok ((shards.zip ds).map (fun pr => (pr.1, .singleDevice pr.2 mk)))
      else .error .invalidArgument
  | .concrete _ _ _ _, _ => .error .invalidArgument
  | .concreteEven ds mk g s, sh =>
      if sh = g then .ok (ds.map (fun d => (s, .singleDevice d mk)))
      else .error .invalidArgument
  | .shardingParamS p ds mk, sh =>
      if sh.dims.length = p.dimShards.length then
        .ok ((List.range ds.length).map
          (fun i => ((paramTileDomain p sh i).shape, .singleDevice (ds.getD i 0) mk)))
      else .error .invalidArgument

/-- Modelled from the spec: `Sharding::Disassemble(const DynamicShape&)`.
`SingleDeviceSharding` returns the identity; `OpaqueSharding` refuses with
unsupported-operation; `ConcreteSharding` requires a stored dynamic shape
equal to the argument; the remaining variants require a static shape and
fail with invalid-argument on a dynamic one. -/
def DisassembleDyn : ShardingI → DynamicShape → Except ErrorKind (List (DynamicShape × ShardingI))
  | .singleDevice d mk, dsh => .ok [(dsh, .singleDevice d mk)]
  | .opaq _ _, _ => .error .unsupportedOp
  | .concrete ds mk (.inr g) (.inr shards), dsh =>
      if dsh = g then
        .ok ((shards.zip ds).map (fun pr => (pr.1, .singleDevice pr.2 mk)))
      else .error .invalidArgument
  | .concrete _ _ _ _, _ => .error .invalidArgument
  | .concreteEven _ _ _ _, _ => .error .invalidArgument
  | .shardingParamS _ _ _, _ => .error .invalidArgument

/-- Modelled from the spec: `Sharding::IndexDomains(const Shape&)`.
`SingleDeviceSharding` returns a single all-zero-origin full-shape domain;
`OpaqueSharding` and `ConcreteSharding` refuse with unsupported-operation;
`ConcreteEvenSharding` tiles the global shape row-major by the stored
shard shape; `ShardingParamSharding` assigns each device the domain of its
tile coordinate. -/
def IndexDomains : ShardingI → Shape → Except ErrorKind (List IndexDomain)
  | .singleDevice _ _, sh => .ok [⟨sh.dims.map (fun _ => 0), sh⟩]
  | .opaq _ _, _ => .error .unsupportedOp
  | .concrete _ _ _ _, _ => .error .unsupportedOp
  | .concreteEven ds _ g s, sh =>
      if sh = g then .ok ((List.range ds.length).map (evenTileDomain g s))
      else .error .invalidArgument
  | .shardingParamS p ds _, sh =>
      if sh.dims.length = p.dimShards.length then
        .ok ((List.range ds.length).map (paramTileDomain p sh))
      else .error .invalidArgument

/-- Discriminator for the `OpaqueSharding` variant. -/
def isOpaq : ShardingI → Bool
  | .opaq _ _ => true
  | _ => false

/-- Discriminator for the `ConcreteSharding` variant. -/
def isConcrete : ShardingI → Bool
  | .concrete _ _ _ _ => true
  | _ => false

end ShardingI

/-- Factory `SingleDeviceSharding::Create` (header line 99): always
constructs. -/
def SingleDeviceSharding.Create (d : Device) (mk : MemoryKind) : ShardingI :=
  .singleDevice d mk

/-- Factory `OpaqueSharding::Create` (header line 131): always
constructs. -/
def OpaqueSharding.Create (ds : DeviceList) (mk : MemoryKind) : ShardingI :=
  .opaq ds mk

/-- Factory `ConcreteSharding::Create` for static shapes (header lines
164-166). Its C++ return type is `std::unique_ptr<ConcreteSharding>` with
a REQUIRES comment, so it has no error channel: it always constructs, and
the size match is a caller precondition. -/
def ConcreteSharding.Create (ds : DeviceList) (mk : MemoryKind) (shape : Shape)
    (shardShapes : List Shape) : ShardingI :=
  .concrete ds mk (.inl shape) (.inl shardShapes)

/-- Factory `ConcreteSharding::Create` for dynamic shapes (header lines
171-173); like the static overload it always constructs. -/
def ConcreteSharding.CreateDynamic (ds : DeviceList) (mk : MemoryKind)
    (shape : DynamicShape) (shardShapes : List DynamicShape) : ShardingI :=
  .concrete ds mk (.inr shape) (.inr shardShapes)

/-- Factory `ConcreteEvenSharding::Create` (header lines 245-248): always
constructs. -/
def ConcreteEvenSharding.Create (ds : DeviceList) (mk : MemoryKind)
    (shape shardShape : Shape) : ShardingI :=
  .concreteEven ds mk shape shardShape

/-- Factory `ShardingParamSharding::Create` (header lines 288-289, return
type `StatusOr`). Modelled from the spec: construction validates
`product(dim_shards) * replication_factor == devices.size()` and fails
with invalid-argument otherwise. -/
def ShardingParamSharding.Create (p : ShardingParam) (ds : DeviceList)
    (mk : MemoryKind) : Except ErrorKind ShardingI :=
  if p.dimShards.prod * p.replicationFactor = ds.length then
    .ok (.shardingParamS p ds mk)
  else .error .invalidArgument

/-! Serialization. The repository snapshot only declares the generic
`Serializable` capability (`serdes.h` hook inherited by `Sharding`,
header line 48); the wire encoding is out of scope for the spec, which
requires only that the round-trip reproduce an equal sharding. The
encoder below is therefore modelled from the spec as a concrete flat
token stream carrying the variant tag and all stored state, with a
recursive-descent reader. -/

/-- Encoder for one natural number. -/
def encNat (n : Nat) : List Nat := [n]

/-- Length-prefixed encoder for a list, concatenating element encodings. -/
def encList (enc : α → List Nat) (xs : List α) : List Nat :=
  xs.length :: xs.foldr (fun a acc => enc a ++ acc) []

/-- Encoder for a `Shape`. -/
def encShape (s : Shape) : List Nat := encList encNat s.dims

/-- Encoder for one dynamic dimension: a tag and the size or bound. -/
def encDynDim : DynDim → List Nat
  | .fixedDim n => [0, n]
  | .boundedDim n => [1, n]

/-- Encoder for a `DynamicShape`. -/
def encDynamicShape (s : DynamicShape) : List Nat := encList encDynDim s.dims

/-- Encoder for a `MemoryKind`. -/
def encMemoryKind : MemoryKind → List Nat
  | ⟨none⟩ => [0]
  | ⟨some n⟩ => [1, n]

/-- Encoder for a `ShardingParam`. -/
def encShardingParam (p : ShardingParam) : List Nat :=
  encList encNat p.dimShards ++ (encList encNat p.permutation ++ [p.replicationFactor])

/-- Tagged encoder for a sum. -/
def encSum (encl : α → List Nat) (encr : β → List Nat) : α ⊕ β → List Nat
  | .inl a => 0 :: encl a
  | .inr b => 1 :: encr b

/-- Modelled from the spec: serialization of a sharding as a flat token
stream, a variant tag followed by the device list, memory kind and all
variant-specific stored state. -/
def serialize : ShardingI → List Nat
  | .singleDevice d mk => 0 :: (encNat d ++ encMemoryKind mk)
  | .opaq ds mk => 1 :: (encList encNat ds ++ encMemoryKind mk)
  | .concrete ds mk shp shards =>
      2 :: (encList encNat ds ++ (encMemoryKind mk ++
        (encSum encShape encDynamicShape shp ++
          encSum (encList encShape) (encList encDynamicShape) shards)))
  | .concreteEven ds mk g s =>
      3 :: (encList encNat ds ++ (encMemoryKind mk ++ (encShape g ++ encShape s)))
  | .shardingParamS p ds mk =>
      4 :: (encShardingParam p ++ (encList encNat ds ++ encMemoryKind mk))

/-- Reader for one natural number. -/
def readNat : List Nat → Option (Nat × List Nat)
  | [] => none
  | n :: rest => some (n, rest)

/-- Reader for a fixed count of elements. -/
def readN (rd : List Nat → Option (α × List Nat)) : Nat → List Nat → Option (List α × List Nat)
  | 0, l => some ([], l)
  | k + 1, l =>
      (rd l).bind (fun pr =>
        (readN rd k pr.2).map (fun qr => (pr.1 :: qr.1, qr.2)))

/-- Reader for a length-prefixed list. -/
def readListOf (rd : List Nat → Option (α × List Nat)) :
    List Nat → Option (List α × List Nat)
  | [] => none
  | n :: rest => readN rd n rest

/-- Reader for a `Shape`. -/
def readShape (l : List Nat) : Option (Shape × List Nat) :=
  (readListOf readNat l).map (fun pr => (⟨pr.1⟩, pr.2))

/-- Reader for one dynamic dimension. -/
def readDynDim : List Nat → Option (DynDim × List Nat)
  | 0 :: n :: rest => some (.fixedDim n, rest)
  | 1 :: n :: rest => some (.boundedDim n, rest)
  | _ => none

/-- Reader for a `DynamicShape`. -/
def readDynamicShape (l : List Nat) : Option (DynamicShape × List Nat) :=
  (readListOf readDynDim l).map (fun pr => (⟨pr.1⟩, pr.2))

/-- Reader for a `MemoryKind`. -/
def readMemoryKind : List Nat → Option (MemoryKind × List Nat)
  | 0 :: rest => some (⟨none⟩, rest)
  | 1 :: n :: rest => some (⟨some n⟩, rest)
  | _ => none

/-- Reader for a tagged sum. -/
def readSum (rdl : List Nat → Option (α × List Nat))
    (rdr : List Nat → Option (β × List Nat)) :
    List Nat → Option ((α ⊕ β) × List Nat)
  | 0 :: rest => (rdl rest).map (fun pr => (.inl pr.1, pr.2))
  | 1 :: rest => (rdr rest).map (fun pr => (.inr pr.1, pr.2))
  | _ => none

/-- Reader for a `ShardingParam`. -/
def readShardingParam (l : List Nat) : Option (ShardingParam × List Nat) :=
  (readListOf readNat l).bind (fun ds =>
    (readListOf readNat ds.2).bind (fun pm =>
      (readNat pm.2).map (fun rf => (⟨ds.1, pm.1, rf.1⟩, rf.2))))

/-- Modelled from the spec: deserialization, the inverse reader of
`serialize`. -/
def deserialize : List Nat → Option ShardingI
  | 0 :: rest =>
      (readNat rest).bind (fun d =>
        (readMemoryKind d.2).map (fun mk => .singleDevice d.1 mk.1))
  | 1 :: rest =>
      (readListOf readNat rest).bind (fun ds =>
        (readMemoryKind ds.2).map (fun mk => .opaq ds.1 mk.1))
  | 2 :: rest =>
      (readListOf readNat rest).bind (fun ds =>
        (readMemoryKind ds.2).bind (fun mk =>
          (readSum readShape readDynamicShape mk.2).bind (fun shp =>
            (readSum (readListOf readShape) (readListOf readDynamicShape) shp.2).map
              (fun shards => .concrete ds.1 mk.1 shp.1 shards.1))))
  | 3 :: rest =>
      (readListOf readNat rest).bind (fun ds =>
        (readMemoryKind ds.2).bind (fun mk =>
          (readShape mk.2).bind (fun g =>
            (readShape g.2).map (fun s => .concreteEven ds.1 mk.1 g.1 s.1))))
  | 4 :: rest =>
      (readShardingParam rest).bind (fun p =>
        (readListOf readNat p.2).bind (fun ds =>
          (readMemoryKind ds.2).map (fun mk => .shardingParamS p.1 ds.1 mk.1)))
  | _ => none

/-- Side condition for the bounds invariant: `parts` and `global` have
equal rank and each dimension is positive with `parts[j]` dividing
`global[j]` evenly. -/
def evenlyDivides (parts global : List Nat) : Prop :=
  global.length = parts.length ∧
  ∀ j, j < global.length →
    0 < global.getD j 0 ∧ 0 < parts.getD j 0 ∧ parts.getD j 0 ∣ global.getD j 0

instance (parts global : List Nat) : Decidable (evenlyDivides parts global) := by
  unfold evenlyDivides
  exact inferInstance

/-- Variant-specific side condition under which the spec's bounds
invariant is provable: even division for the two tiling variants, nothing
for the others. -/
def boundsCond : ShardingI → Shape → Prop
  | .concreteEven _ _ _ s, g => evenlyDivides s.dims g.dims
  | .shardingParamS p _ _, g => evenlyDivides p.dimShards g.dims
  | _, _ => True

instance (s : ShardingI) (g : Shape) : Decidable (boundsCond s g) := by
  cases s <;> simp only [boundsCond] <;> exact inferInstance

/-! Helper lemmas about list indexing, unraveling and truncation. -/

theorem getD_map_of_lt {α β : Type} (f : α → β) (d : α) (db : β) :
    ∀ (l : List α) (j : Nat), j < l.length → (l.map f).getD j db = f (l.getD j d)
  | a :: _, 0, _ => rfl
  | a :: l, j + 1, h => by
      simpa using getD_map_of_lt f d db l j (by simpa using h)
  | [], j, h => absurd h (by simp)

theorem getD_range_of_lt : ∀ (n j : Nat), j < n → (List.range n).getD j 0 = j := by
  intro n j h
  rw [List.getD_eq_getElem _ _ (by simpa using h)]
  simp

theorem getD_map_range {α : Type} (f : Nat → α) (db : α) (n j : Nat) (hj : j < n) :
    ((List.range n).map f).getD j db = f j := by
  rw [getD_map_of_lt f 0 db _ j (by simpa using hj), getD_range_of_lt n j hj]

theorem getD_zipWith_of_lt (f : Nat → Nat → Nat) :
    ∀ (a b : List Nat) (j : Nat), j < a.length → j < b.length →
      (List.zipWith f a b).getD j 0 = f (a.getD j 0) (b.getD j 0)
  | _ :: _, _ :: _, 0, _, _ => rfl
  | x :: a, y :: b, j + 1, ha, hb => by
      simpa using getD_zipWith_of_lt f a b j (by simpa using ha) (by simpa using hb)
  | [], _, j, ha, _ => absurd ha (by simp)
  | _ :: _, [], j, _, hb => absurd hb (by simp)

theorem getD_zip_map {α β γ : Type} (f : α × β → γ) (da : α) (db : β) (dc : γ) :
    ∀ (as : List α) (bs : List β) (i : Nat), i < as.length → i < bs.length →
      ((as.zip bs).map f).getD i dc = f (as.getD i da, bs.getD i db)
  | a :: as, b :: bs, 0, _, _ => rfl
  | a :: as, b :: bs, i + 1, ha, hb => by
      simpa using getD_zip_map f da db dc as bs i (by simpa using ha) (by simpa using hb)
  | [], _, i, ha, _ => absurd ha (by simp)
  | _ :: _, [], i, _, hb => absurd hb (by simp)

theorem unravelIndex_length : ∀ (dims : List Nat) (i : Nat),
    (unravelIndex dims i).length = dims.length
  | [], _ => rfl
  | _ :: rest, i => by simp [unravelIndex, unravelIndex_length rest]

theorem unravelIndex_getD_lt : ∀ (dims : List Nat) (i j : Nat), j < dims.length →
    0 < dims.getD j 0 → (unravelIndex dims i).getD j 0 < dims.getD j 0
  | d :: rest, i, 0, _, hp => by
      simpa [unravelIndex] using Nat.mod_lt _ (by simpa using hp)
  | d :: rest, i, j + 1, hj, hp => by
      simpa [unravelIndex] using
        unravelIndex_getD_lt rest (i % rest.prod) j (by simpa using hj) (by simpa using hp)
  | [], _, j, hj, _ => absurd hj (by simp)

theorem posOf_getD (d : Nat) : ∀ (l : List Nat), posOf d l < l.length →
    l.getD (posOf d l) 0 = d
  | [], h => absurd h (by simp [posOf])
  | p :: ps, h => by
      by_cases hp : p = d
      · simp [posOf, hp]
      · have h2 : posOf d ps < ps.length := by
          have := h
          simp only [posOf, hp, if_false, List.length_cons] at this
          omega
        simpa [posOf, hp] using posOf_getD d ps h2

theorem truncDims_getD_bound : ∀ (o s g : List Nat) (i : Nat),
    (∀ j, o.getD j 0 ≤ g.getD j 0) →
    o.getD i 0 + (truncDims o s g).getD i 0 ≤ g.getD i 0
  | [], s, g, i, _ => by
      cases s <;> cases g <;> simp [truncDims]
  | o :: os, [], g, i, h => by
      cases g <;> simpa [truncDims] using h i
  | o :: os, s :: ss, [], i, h => by
      have := h i
      simp only [List.getD_nil] at this ⊢
      simpa [truncDims] using this
  | o :: os, s :: ss, g :: gs, 0, h => by
      have h0 : o ≤ g := by simpa using h 0
      have hm : min s (g - o) ≤ g - o := min_le_right _ _
      simp only [truncDims, List.getD_cons_zero]
      omega
  | o :: os, s :: ss, g :: gs, i + 1, h => by
      simpa [truncDims] using
        truncDims_getD_bound os ss gs i (fun j => by simpa using h (j + 1))

theorem ceilDiv_of_dvd (g s : Nat) (hs : 0 < s) (hd : s ∣ g) :
    ceilDiv g s = g / s := by
  obtain ⟨k, rfl⟩ := hd
  unfold ceilDiv
  have h1 : s * k + s - 1 = s * k + (s - 1) := by omega
  rw [h1, Nat.mul_add_div hs, Nat.div_eq_of_lt (by omega), Nat.mul_div_cancel_left _ hs]
  omega

theorem mulCoord_length (c sizes : List Nat) :
    (mulCoord c sizes).length = min c.length sizes.length := by
  simp [mulCoord]

theorem tileCoord_length (p : ShardingParam) (i : Nat) :
    (p.tileCoord i).length = p.dimShards.length := by
  simp [ShardingParam.tileCoord]

theorem tileCoord_getD_lt (p : ShardingParam) (i d : Nat)
    (hd : d < p.dimShards.length) (hpos : 0 < p.dimShards.getD d 0) :
    (p.tileCoord i).getD d 0 < p.dimShards.getD d 0 := by
  unfold ShardingParam.tileCoord
  rw [getD_map_range _ 0 _ d hd]
  by_cases hk : posOf d p.permutation < p.permutation.length
  · have hklt : posOf d p.permutation < (applyPerm p.permutation p.dimShards).length := by
      simpa [applyPerm] using hk
    have hdim : (applyPerm p.permutation p.dimShards).getD (posOf d p.permutation) 0
        = p.dimShards.getD d 0 := by
      unfold applyPerm
      rw [getD_map_of_lt _ 0 0 _ _ hk, posOf_getD d _ hk]
    have hlt := unravelIndex_getD_lt (applyPerm p.permutation p.dimShards)
      (i / p.replicationFactor) (posOf d p.permutation) hklt (by rw [hdim]; exact hpos)
    rwa [hdim] at hlt
  · have hz : (unravelIndex (applyPerm p.permutation p.dimShards)
        (i / p.replicationFactor)).getD (posOf d p.permutation) 0 = 0 := by
      apply List.getD_eq_default
      rw [unravelIndex_length]
      simp only [applyPerm, List.length_map]
      omega
    rw [hz]
    exact hpos

/-! Bounds machinery: when tile counts evenly divide the global
dimensions, every computed origin stays within the global bounds. -/

theorem tileDomainFor_bounds (sizes gdims c : List Nat)
    (h : ∀ j, (mulCoord c sizes).getD j 0 ≤ gdims.getD j 0) (i : Nat) :
    (tileDomainFor sizes gdims c).origin.getD i 0 +
      (tileDomainFor sizes gdims c).shape.dims.getD i 0 ≤ gdims.getD i 0 := by
  simpa [tileDomainFor] using truncDims_getD_bound (mulCoord c sizes) sizes gdims i h

theorem even_origin_le (g s : List Nat) (i : Nat)
    (hlen : g.length = s.length) (hdvd : evenlyDivides s g) :
    ∀ j, (mulCoord (unravelIndex (List.zipWith ceilDiv g s) i) s).getD j 0 ≤ g.getD j 0 := by
  intro j
  by_cases hj : j < g.length
  · have htl : (List.zipWith ceilDiv g s).length = g.length := by
      simp [List.length_zipWith]
      omega
    have hcl : (unravelIndex (List.zipWith ceilDiv g s) i).length = g.length := by
      rw [unravelIndex_length, htl]
    obtain ⟨hg, hs, hd⟩ := hdvd.2 j hj
    have htj : (List.zipWith ceilDiv g s).getD j 0 = g.getD j 0 / s.getD j 0 := by
      rw [getD_zipWith_of_lt _ _ _ _ hj (by omega), ceilDiv_of_dvd _ _ hs hd]
    have htpos : 0 < (List.zipWith ceilDiv g s).getD j 0 := by
      rw [htj]
      exact Nat.div_pos (Nat.le_of_dvd hg hd) hs
    have hclt := unravelIndex_getD_lt (List.zipWith ceilDiv g s) i j (by omega) htpos
    rw [htj] at hclt
    simp only [mulCoord]
    rw [getD_zipWith_of_lt _ _ _ _ (by omega) (by omega)]
    calc (unravelIndex (List.zipWith ceilDiv g s) i).getD j 0 * s.getD j 0
        ≤ (g.getD j 0 / s.getD j 0) * s.getD j 0 :=
          Nat.mul_le_mul_right _ (Nat.le_of_lt hclt)
      _ = g.getD j 0 := Nat.div_mul_cancel hd
  · have hz : (mulCoord (unravelIndex (List.zipWith ceilDiv g s) i) s).getD j 0 = 0 := by
      apply List.getD_eq_default
      rw [mulCoord_length, unravelIndex_length]
      simp [List.length_zipWith]
      omega
    rw [hz]
    exact Nat.zero_le _

theorem param_origin_le (p : ShardingParam) (g : List Nat) (i : Nat)
    (hlen : g.length = p.dimShards.length) (hdvd : evenlyDivides p.dimShards g) :
    ∀ j, (mulCoord (p.tileCoord i) (List.zipWith ceilDiv g p.dimShards)).getD j 0
      ≤ g.getD j 0 := by
  intro j
  by_cases hj : j < g.length
  · obtain ⟨hg, hn, hd⟩ := hdvd.2 j hj
    have hclt := tileCoord_getD_lt p i j (by omega) hn
    have hsj : (List.zipWith ceilDiv g p.dimShards).getD j 0
        = g.getD j 0 / p.dimShards.getD j 0 := by
      rw [getD_zipWith_of_lt _ _ _ _ hj (by omega), ceilDiv_of_dvd _ _ hn hd]
    simp only [mulCoord]
    rw [getD_zipWith_of_lt _ _ _ _ (by rw [tileCoord_length]; omega)
      (by simp only [List.length_zipWith]; omega), hsj]
    calc (p.tileCoord i).getD j 0 * (g.getD j 0 / p.dimShards.getD j 0)
        ≤ p.dimShards.getD j 0 * (g.getD j 0 / p.dimShards.getD j 0) :=
          Nat.mul_le_mul_right _ (Nat.le_of_lt hclt)
      _ = g.getD j 0 := Nat.mul_div_cancel' hd
  · have hz : (mulCoord (p.tileCoord i) (List.zipWith ceilDiv g p.dimShards)).getD j 0
        = 0 := by
      apply List.getD_eq_default
      rw [mulCoord_length, tileCoord_length]
      simp [List.length_zipWith]
      omega
    rw [hz]
    exact Nat.zero_le _

/-! Round-trip lemmas for the modelled serialization. -/

theorem foldr_enc_append {α : Type} (enc : α → List Nat) :
    ∀ (xs : List α) (r : List Nat),
      xs.foldr (fun a acc => enc a ++ acc) [] ++ r =
        xs.foldr (fun a acc => enc a ++ acc) r
  | [], _ => rfl
  | x :: xs, r => by
      simp only [List.foldr_cons, List.append_assoc, foldr_enc_append enc xs r]

theorem readN_enc {α : Type} (rd : List Nat → Option (α × List Nat))
    (enc : α → List Nat) (h : ∀ a r, rd (enc a ++ r) = some (a, r)) :
    ∀ (xs : List α) (r : List Nat),
      readN rd xs.length (xs.foldr (fun a acc => enc a ++ acc) r) = some (xs, r)
  | [], _ => rfl
  | x :: xs, r => by
      simp [readN, h x, readN_enc rd enc h xs r]

theorem readListOf_enc {α : Type} (rd : List Nat → Option (α × List Nat))
    (enc : α → List Nat) (h : ∀ a r, rd (enc a ++ r) = some (a, r))
    (xs : List α) (r : List Nat) :
    readListOf rd (encList enc xs ++ r) = some (xs, r) := by
  simp only [encList, List.cons_append, readListOf, foldr_enc_append enc xs r,
    readN_enc rd enc h xs r]

theorem readNat_enc (a : Nat) (r : List Nat) : readNat (encNat a ++ r) = some (a, r) := rfl

theorem readShape_enc (s : Shape) (r : List Nat) :
    readShape (encShape s ++ r) = some (s, r) := by
  simp [readShape, encShape, readListOf_enc readNat encNat readNat_enc]

theorem readDynDim_enc (d : DynDim) (r : List Nat) :
    readDynDim (encDynDim d ++ r) = some (d, r) := by
  cases d <;> rfl

theorem readDynamicShape_enc (s : DynamicShape) (r : List Nat) :
    readDynamicShape (encDynamicShape s ++ r) = some (s, r) := by
  simp [readDynamicShape, encDynamicShape,
    readListOf_enc readDynDim encDynDim readDynDim_enc]

theorem readMemoryKind_enc (mk : MemoryKind) (r : List Nat) :
    readMemoryKind (encMemoryKind mk ++ r) = some (mk, r) := by
  obtain ⟨k⟩ := mk
  cases k <;> rfl

theorem readSum_enc {α β : Type} (rdl : List Nat → Option (α × List Nat))
    (rdr : List Nat → Option (β × List Nat)) (encl : α → List Nat)
    (encr : β → List Nat) (hl : ∀ a r, rdl (encl a ++ r) = some (a, r))
    (hr : ∀ b r, rdr (encr b ++ r) = some (b, r)) (x : α ⊕ β) (r : List Nat) :
    readSum rdl rdr (encSum encl encr x ++ r) = some (x, r) := by
  cases x with
  | inl a => simp [encSum, readSum, hl a]
  | inr b => simp [encSum, readSum, hr b]

theorem readShardingParam_enc (p : ShardingParam) (r : List Nat) :
    readShardingParam (encShardingParam p ++ r) = some (p, r) := by
  simp [readShardingParam, encShardingParam, List.append_assoc,
    readListOf_enc readNat encNat readNat_enc, readNat]

theorem readMemoryKind_enc_nil (mk : MemoryKind) :
    readMemoryKind (encMemoryKind mk) = some (mk, []) := by
  simpa using readMemoryKind_enc mk []

theorem readShape_enc_nil (s : Shape) : readShape (encShape s) = some (s, []) := by
  simpa using readShape_enc s []

theorem readSumShards_enc_nil (shards : List Shape ⊕ List DynamicShape) :
    readSum (readListOf readShape) (readListOf readDynamicShape)
      (encSum (encList encShape) (encList encDynamicShape) shards) =
      some (shards, []) := by
  simpa using readSum_enc (readListOf readShape) (readListOf readDynamicShape)
    (encList encShape) (encList encDynamicShape)
    (readListOf_enc readShape encShape readShape_enc)
    (readListOf_enc readDynamicShape encDynamicShape readDynamicShape_enc) shards []

/-- C9: for every sharding variant and instance, serializing and then
deserializing yields exactly the original sharding: equal variant tag,
device list, memory kind and all variant-specific stored state. -/
theorem serialize_roundtrip (s : ShardingI) : deserialize (serialize s) = some s := by
  cases s with
  | singleDevice d mk =>
      simp [serialize, deserialize, encNat, readNat, readMemoryKind_enc_nil]
  | opaq ds mk =>
      simp [serialize, deserialize, readListOf_enc readNat encNat readNat_enc,
        readMemoryKind_enc_nil]
  | concrete ds mk shp shards =>
      simp [serialize, deserialize, readListOf_enc readNat encNat readNat_enc,
        readMemoryKind_enc,
        readSum_enc readShape readDynamicShape encShape encDynamicShape
          readShape_enc readDynamicShape_enc,
        readSumShards_enc_nil]
  | concreteEven ds mk g sh =>
      simp [serialize, deserialize, readListOf_enc readNat encNat readNat_enc,
        readMemoryKind_enc, readShape_enc, readShape_enc_nil]
  | shardingParamS p ds mk =>
      simp [serialize, deserialize, readShardingParam_enc,
        readListOf_enc readNat encNat readNat_enc, readMemoryKind_enc_nil]

/-! Claim theorems. -/

/-- C1: for every sharding variant and every validly constructed
instance, a successful `Disassemble(shape)` returns exactly
`devices().size()` pairs, and a successful `IndexDomains(shape)` returns
exactly `devices().size()` index domains. -/
theorem shard_count_invariant (s : ShardingI) (hwf : s.wf = true) (sh : Shape) :
    (∀ out, s.Disassemble sh = .ok out → out.length = s.devices.length) ∧
    (∀ out, s.IndexDomains sh = .ok out → out.length = s.devices.length) := by
  cases s with
  | singleDevice d mk =>
      refine ⟨fun out h => ?_, fun out h => ?_⟩ <;>
        simp only [ShardingI.Disassemble, ShardingI.IndexDomains,
          Except.ok.injEq] at h <;>
        simp [← h, ShardingI.devices]
  | opaq ds mk =>
      refine ⟨fun out h => ?_, fun out h => ?_⟩ <;>
        simp [ShardingI.Disassemble, ShardingI.IndexDomains] at h
  | concrete ds mk shp shards =>
      cases shp with
      | inl G =>
          cases shards with
          | inl l =>
              have hlen : l.length = ds.length := by
                simpa [ShardingI.wf] using hwf
              refine ⟨fun out h => ?_, fun out h => ?_⟩
              · simp only [ShardingI.Disassemble] at h
                split at h
                · simp only [Except.ok.injEq] at h
                  simp [← h, ShardingI.devices, hlen]
                · exact absurd h (by simp)
              · simp [ShardingI.IndexDomains] at h
          | inr l => simp [ShardingI.wf] at hwf
      | inr G =>
          cases shards with
          | inl l => simp [ShardingI.wf] at hwf
          | inr l =>
              refine ⟨fun out h => ?_, fun out h => ?_⟩ <;>
                simp [ShardingI.Disassemble, ShardingI.IndexDomains] at h
  | concreteEven ds mk G S =>
      refine ⟨fun out h => ?_, fun out h => ?_⟩ <;>
        simp only [ShardingI.Disassemble, ShardingI.IndexDomains] at h <;>
        split at h <;>
        first
          | (simp only [Except.ok.injEq] at h
             simp [← h, ShardingI.devices])
          | exact absurd h (by simp)
  | shardingParamS p ds mk =>
      refine ⟨fun out h => ?_, fun out h => ?_⟩ <;>
        simp only [ShardingI.Disassemble, ShardingI.IndexDomains] at h <;>
        split at h <;>
        first
          | (simp only [Except.ok.injEq] at h
             simp [← h, ShardingI.devices])
          | exact absurd h (by simp)

/-- Witness for C1: the single-device sharding over device 0 is well
formed and its disassembly of shape `[4]` has as many entries as
devices. -/
theorem shard_count_invariant_witness :
    (ShardingI.singleDevice 0 ⟨none⟩).wf = true ∧
    ([(⟨[4]⟩, ShardingI.singleDevice 0 ⟨none⟩)] : List (Shape × ShardingI)).length =
      (ShardingI.singleDevice 0 ⟨none⟩).devices.length :=
  ⟨rfl, (shard_count_invariant (.singleDevice 0 ⟨none⟩) rfl ⟨[4]⟩).1 _ rfl⟩

/-- C4: a `SingleDeviceSharding` over device `D` disassembles any shape
`S` into the single pair `(S, sharding over D)` and maps it to the single
index domain with all-zero origin and shape `S`; its device list is
exactly `[D]`. -/
theorem single_device_identity (d : Device) (mk : MemoryKind) (sh : Shape) :
    (ShardingI.singleDevice d mk).Disassemble sh = .ok [(sh, .singleDevice d mk)] ∧
    (ShardingI.singleDevice d mk).IndexDomains sh =
      .ok [⟨sh.dims.map (fun _ => 0), sh⟩] ∧
    (ShardingI.singleDevice d mk).devices = [d] :=
  ⟨rfl, rfl, rfl⟩

/-- C8: a `ConcreteEvenSharding` maps its stored global shape to one tile
domain per device, device `i` taking the tile at row-major flattened
coordinate `i` of the grid obtained by dividing each global dimension
into `ceil(global / shard)` steps; with global `[4,4]`, shard `[2,2]` and
4 devices this yields the four quadrants, each of shape `[2,2]`. -/
theorem concrete_even_tiling :
    (∀ (ds : DeviceList) (mk : MemoryKind) (g s : Shape),
      (ShardingI.concreteEven ds mk g s).IndexDomains g =
        .ok ((List.range ds.length).map (evenTileDomain g s))) ∧
    (ShardingI.concreteEven [0, 1, 2, 3] ⟨none⟩ ⟨[4, 4]⟩ ⟨[2, 2]⟩).IndexDomains
        ⟨[4, 4]⟩ =
      .ok [⟨[0, 0], ⟨[2, 2]⟩⟩, ⟨[0, 2], ⟨[2, 2]⟩⟩, ⟨[2, 0], ⟨[2, 2]⟩⟩,
        ⟨[2, 2], ⟨[2, 2]⟩⟩] :=
  ⟨fun ds mk g s => by simp [ShardingI.IndexDomains], rfl⟩

/-- C7: under `ShardingParamSharding`, devices whose linear indices
unravel to the same tile coordinate receive identical entries from
`IndexDomains`; in particular with `dim_shards=[1]`, replication factor
2, global shape `[8]` and 2 devices, both devices receive the identical
domain with origin `[0]` and shape `[8]`. -/
theorem param_replication :
    (∀ (p : ShardingParam) (ds : DeviceList) (mk : MemoryKind) (g : Shape)
        (doms : List IndexDomain) (i j : Nat),
      (ShardingI.shardingParamS p ds mk).IndexDomains g = .ok doms →
      i < ds.length → j < ds.length → p.tileCoord i = p.tileCoord j →
      doms.getD i ⟨[], ⟨[]⟩⟩ = doms.getD j ⟨[], ⟨[]⟩⟩) ∧
    (ShardingI.shardingParamS ⟨[1], [0], 2⟩ [0, 1] ⟨none⟩).IndexDomains ⟨[8]⟩ =
      .ok [⟨[0], ⟨[8]⟩⟩, ⟨[0], ⟨[8]⟩⟩] := by
  constructor
  · intro p ds mk g doms i j hok hi hj hc
    simp only [ShardingI.IndexDomains] at hok
    split at hok
    · simp only [Except.ok.injEq] at hok
      subst hok
      rw [getD_map_range _ _ _ i hi, getD_map_range _ _ _ j hj]
      simp only [paramTileDomain, hc]
    · exact absurd hok (by simp)
  · rfl

/-- Witness for C7: both devices of the replicated example share the same
index domain, obtained by applying the replication theorem at devices 0
and 1. -/
theorem param_replication_witness :
    ([⟨[0], ⟨[8]⟩⟩, ⟨[0], ⟨[8]⟩⟩] : List IndexDomain).getD 0 ⟨[], ⟨[]⟩⟩ =
      ([⟨[0], ⟨[8]⟩⟩, ⟨[0], ⟨[8]⟩⟩] : List IndexDomain).getD 1 ⟨[], ⟨[]⟩⟩ :=
  param_replication.1 ⟨[1], [0], 2⟩ [0, 1] ⟨none⟩ ⟨[8]⟩ _ 0 1 rfl
    (by decide) (by decide) rfl

/-- C2 counterexample: a validly constructed `ShardingParamSharding` with
`dim_shards=[3]`, replication factor 1, 3 devices and global shape `[1]`
succeeds in `IndexDomains`, yet the domain of device 2 has origin 2 and
shape 0 in dimension 0, and `2 + 0 <= 1` fails: a returned sub-rectangle
starts past the global bound. -/
theorem index_domains_bounds_counterexample :
    (ShardingI.shardingParamS ⟨[3], [0], 1⟩ [0, 1, 2] ⟨none⟩).wf = true ∧
    (ShardingI.shardingParamS ⟨[3], [0], 1⟩ [0, 1, 2] ⟨none⟩).IndexDomains ⟨[1]⟩ =
      .ok [⟨[0], ⟨[1]⟩⟩, ⟨[1], ⟨[0]⟩⟩, ⟨[2], ⟨[0]⟩⟩] ∧
    ¬ ((⟨[2], ⟨[0]⟩⟩ : IndexDomain).origin.getD 0 0 +
        (⟨[2], ⟨[0]⟩⟩ : IndexDomain).shape.dims.getD 0 0 ≤
        (⟨[1]⟩ : Shape).dims.getD 0 0) :=
  ⟨rfl, rfl, by decide⟩

/-- C2 (amended): every `IndexDomain` returned by `IndexDomains` on a
validly constructed sharding satisfies
`origin[i] + shape.dims[i] <= global.dims[i]` in every dimension,
provided that for the two tiling variants (`ConcreteEvenSharding`,
`ShardingParamSharding`) each dimension is positive and the shard extent
respectively shard count evenly divides the corresponding global
dimension; for the other variants no proviso is needed. -/
theorem index_domains_bounds (s : ShardingI) (g : Shape) (doms : List IndexDomain)
    (hwf : s.wf = true) (hc : boundsCond s g)
    (hok : s.IndexDomains g = .ok doms) :
    ∀ dom ∈ doms, ∀ i, i < g.dims.length →
      dom.origin.getD i 0 + dom.shape.dims.getD i 0 ≤ g.dims.getD i 0 := by
  cases s with
  | singleDevice d mk =>
      intro dom hdom i hi
      simp only [ShardingI.IndexDomains, Except.ok.injEq] at hok
      rw [← hok] at hdom
      simp only [List.mem_singleton] at hdom
      subst hdom
      have hz : (g.dims.map (fun _ => 0)).getD i 0 = 0 :=
        getD_map_of_lt (fun _ => 0) 0 0 g.dims i hi
      simp [hz]
  | opaq ds mk => simp [ShardingI.IndexDomains] at hok
  | concrete ds mk shp shards => simp [ShardingI.IndexDomains] at hok
  | concreteEven ds mk G S =>
      intro dom hdom i hi
      simp only [ShardingI.IndexDomains] at hok
      split at hok
      · rename_i heq
        subst heq
        simp only [Except.ok.injEq] at hok
        rw [← hok] at hdom
        obtain ⟨i0, hi0, rfl⟩ := List.mem_map.mp hdom
        have hcond : evenlyDivides S.dims g.dims := hc
        simpa [evenTileDomain] using
          tileDomainFor_bounds S.dims g.dims
            (unravelIndex (List.zipWith ceilDiv g.dims S.dims) i0)
            (even_origin_le g.dims S.dims i0 hcond.1 hcond) i
      · exact absurd hok (by simp)
  | shardingParamS p ds mk =>
      intro dom hdom i hi
      simp only [ShardingI.IndexDomains] at hok
      split at hok
      · rename_i hrank
        simp only [Except.ok.injEq] at hok
        rw [← hok] at hdom
        obtain ⟨i0, hi0, rfl⟩ := List.mem_map.mp hdom
        have hcond : evenlyDivides p.dimShards g.dims := hc
        simpa [paramTileDomain, paramDomainOfCoord] using
          tileDomainFor_bounds (List.zipWith ceilDiv g.dims p.dimShards) g.dims
            (p.tileCoord i0) (param_origin_le p g.dims i0 hrank hcond) i
      · exact absurd hok (by simp)

/-- Witness for the amended C2 theorem at the even `[4,4]`/`[2,2]`
example: the first quadrant domain respects the bound in dimension 0. -/
theorem index_domains_bounds_witness :
    (⟨[0, 0], ⟨[2, 2]⟩⟩ : IndexDomain).origin.getD 0 0 +
      (⟨[0, 0], ⟨[2, 2]⟩⟩ : IndexDomain).shape.dims.getD 0 0 ≤
      (⟨[4, 4]⟩ : Shape).dims.getD 0 0 :=
  index_domains_bounds (.concreteEven [0, 1, 2, 3] ⟨none⟩ ⟨[4, 4]⟩ ⟨[2, 2]⟩)
    ⟨[4, 4]⟩
    [⟨[0, 0], ⟨[2, 2]⟩⟩, ⟨[0, 2], ⟨[2, 2]⟩⟩, ⟨[2, 0], ⟨[2, 2]⟩⟩, ⟨[2, 2], ⟨[2, 2]⟩⟩]
    rfl (by decide) rfl ⟨[0, 0], ⟨[2, 2]⟩⟩ (by decide) 0 (by decide)

/-- C3: `UnsupportedOperation` arises exactly for `OpaqueSharding`'s two
`Disassemble` overloads and its `IndexDomains`, and for
`ConcreteSharding`'s `IndexDomains`; no other variant/operation pair ever
returns it. -/
theorem unsupported_exactly (sh : Shape) (dsh : DynamicShape) :
    (∀ (ds : DeviceList) (mk : MemoryKind),
      (ShardingI.opaq ds mk).Disassemble sh = .error .unsupportedOp) ∧
    (∀ (ds : DeviceList) (mk : MemoryKind),
      (ShardingI.opaq ds mk).DisassembleDyn dsh = .error .unsupportedOp) ∧
    (∀ (ds : DeviceList) (mk : MemoryKind),
      (ShardingI.opaq ds mk).IndexDomains sh = .error .unsupportedOp) ∧
    (∀ (ds : DeviceList) (mk : MemoryKind) (shp : Shape ⊕ DynamicShape)
        (shards : List Shape ⊕ List DynamicShape),
      (ShardingI.concrete ds mk shp shards).IndexDomains sh = .error .unsupportedOp) ∧
    (∀ s : ShardingI, s.isOpaq = false →
      s.Disassemble sh ≠ .error .unsupportedOp) ∧
    (∀ s : ShardingI, s.isOpaq = false →
      s.DisassembleDyn dsh ≠ .error .unsupportedOp) ∧
    (∀ s : ShardingI, s.isOpaq = false → s.isConcrete = false →
      s.IndexDomains sh ≠ .error .unsupportedOp) := by
  refine ⟨fun ds mk => rfl, fun ds mk => rfl, fun ds mk => rfl,
    fun ds mk shp shards => rfl, ?_, ?_, ?_⟩
  · intro s hs
    cases s with
    | singleDevice d mk => simp [ShardingI.Disassemble]
    | opaq ds mk => simp [ShardingI.isOpaq] at hs
    | concrete ds mk shp shards =>
        cases shp <;> cases shards <;>
          simp only [ShardingI.Disassemble] <;>
          first
            | (split <;> simp)
            | simp
    | concreteEven ds mk G S =>
        simp only [ShardingI.Disassemble]
        split <;> simp
    | shardingParamS p ds mk =>
        simp only [ShardingI.Disassemble]
        split <;> simp
  · intro s hs
    cases s with
    | singleDevice d mk => simp [ShardingI.DisassembleDyn]
    | opaq ds mk => simp [ShardingI.isOpaq] at hs
    | concrete ds mk shp shards =>
        cases shp <;> cases shards <;>
          simp only [ShardingI.DisassembleDyn] <;>
          first
            | (split <;> simp)
            | simp
    | concreteEven ds mk G S => simp [ShardingI.DisassembleDyn]
    | shardingParamS p ds mk => simp [ShardingI.DisassembleDyn]
  · intro s hs hc
    cases s with
    | singleDevice d mk => simp [ShardingI.IndexDomains]
    | opaq ds mk => simp [ShardingI.isOpaq] at hs
    | concrete ds mk shp shards => simp [ShardingI.isConcrete] at hc
    | concreteEven ds mk G S =>
        simp only [ShardingI.IndexDomains]
        split <;> simp
    | shardingParamS p ds mk =>
        simp only [ShardingI.IndexDomains]
        split <;> simp

/-- Witness for C3: a single-device sharding (not an `OpaqueSharding`)
never reports unsupported-operation from `Disassemble`. -/
theorem unsupported_exactly_witness :
    (ShardingI.singleDevice 0 ⟨none⟩).Disassemble ⟨[2]⟩ ≠
      Except.error ErrorKind.unsupportedOp :=
  (unsupported_exactly ⟨[2]⟩ ⟨[]⟩).2.2.2.2.1 (.singleDevice 0 ⟨none⟩) rfl

/-- C5: a `ConcreteSharding` with stored static global shape `G` and
stored shard shapes disassembles a supplied shape exactly when it equals
`G` (failing with `InvalidArgument` otherwise), and on success plays back
the stored shard shapes verbatim, each paired with a
`SingleDeviceSharding` over the device at the same index. -/
theorem concrete_disassemble_playback (ds : DeviceList) (mk : MemoryKind)
    (G : Shape) (shards : List Shape) (sh : Shape)
    (hwf : (ShardingI.concrete ds mk (.inl G) (.inl shards)).wf = true) :
    ((∃ out, (ShardingI.concrete ds mk (.inl G) (.inl shards)).Disassemble sh =
        .ok out) ↔ sh = G) ∧
    (sh ≠ G →
      (ShardingI.concrete ds mk (.inl G) (.inl shards)).Disassemble sh =
        .error .invalidArgument) ∧
    (ShardingI.concrete ds mk (.inl G) (.inl shards)).Disassemble G =
      .ok ((shards.zip ds).map (fun pr => (pr.1, ShardingI.singleDevice pr.2 mk))) ∧
    (∀ i, i < ds.length →
      ((shards.zip ds).map (fun pr => (pr.1, ShardingI.singleDevice pr.2 mk))).getD i
          (⟨[]⟩, ShardingI.singleDevice 0 ⟨none⟩) =
        (shards.getD i ⟨[]⟩, ShardingI.singleDevice (ds.getD i 0) mk)) := by
  have hlen : shards.length = ds.length := by
    simpa [ShardingI.wf] using hwf
  refine ⟨⟨?_, ?_⟩, ?_, ?_, ?_⟩
  · rintro ⟨out, hout⟩
    by_contra hne
    simp [ShardingI.Disassemble, hne] at hout
  · rintro rfl
    exact ⟨(shards.zip ds).map (fun pr => (pr.1, ShardingI.singleDevice pr.2 mk)),
      by simp [ShardingI.Disassemble]⟩
  · intro hne
    simp [ShardingI.Disassemble, hne]
  · simp [ShardingI.Disassemble]
  · intro i hi
    exact getD_zip_map (fun pr => (pr.1, ShardingI.singleDevice pr.2 mk))
      ⟨[]⟩ 0 _ shards ds i (by omega) hi

/-- Witness for C5: a two-device concrete sharding plays back its two
stored shard shapes verbatim at its stored global shape. -/
theorem concrete_disassemble_playback_witness :
    (ShardingI.concrete [0, 1] ⟨none⟩ (.inl ⟨[3]⟩)
        (.inl [⟨[1]⟩, ⟨[2]⟩])).Disassemble ⟨[3]⟩ =
      .ok [(⟨[1]⟩, ShardingI.singleDevice 0 ⟨none⟩),
        (⟨[2]⟩, ShardingI.singleDevice 1 ⟨none⟩)] := by
  rw [(concrete_disassemble_playback [0, 1] ⟨none⟩ ⟨[3]⟩ [⟨[1]⟩, ⟨[2]⟩] ⟨[3]⟩
    rfl).2.2.1]
  rfl

/-- C6 counterexample: `ConcreteSharding::Create` invoked with 1 device
but 2 shard shapes still constructs and returns an object (its return
type in the header is `std::unique_ptr<ConcreteSharding>`, which carries
no status), so a mismatched call does not fail with `InvalidArgument`. -/
theorem concrete_create_returns_object :
    ConcreteSharding.Create [0] ⟨none⟩ ⟨[2]⟩ [⟨[1]⟩, ⟨[1]⟩] =
      ShardingI.concrete [0] ⟨none⟩ (.inl ⟨[2]⟩) (.inl [⟨[1]⟩, ⟨[1]⟩]) ∧
    (ConcreteSharding.Create [0] ⟨none⟩ ⟨[2]⟩ [⟨[1]⟩, ⟨[1]⟩]).devices = [0] :=
  ⟨rfl, rfl⟩

/-- C6 (amended): `ShardingParamSharding::Create` succeeds exactly when
`product(dim_shards) * replication_factor` equals the device count and
fails with `InvalidArgument` otherwise; `ConcreteSharding::Create`'s size
match is a precondition (no error channel) under which the constructed
object is well formed; and every well-formed instance has, per variant,
some shape on which disassembly succeeds and (outside the two variants
that intrinsically refuse) some shape on which `IndexDomains` succeeds,
so later failures come from the shape argument, never from internal
inconsistency. -/
theorem factory_validation :
    (∀ (p : ShardingParam) (ds : DeviceList) (mk : MemoryKind),
      p.dimShards.prod * p.replicationFactor = ds.length →
        ShardingParamSharding.Create p ds mk = .ok (.shardingParamS p ds mk)) ∧
    (∀ (p : ShardingParam) (ds : DeviceList) (mk : MemoryKind),
      p.dimShards.prod * p.replicationFactor ≠ ds.length →
        ShardingParamSharding.Create p ds mk = .error .invalidArgument) ∧
    (∀ (p : ShardingParam) (ds : DeviceList) (mk : MemoryKind) (s : ShardingI),
      ShardingParamSharding.Create p ds mk = .ok s → s.wf = true) ∧
    (∀ (ds : DeviceList) (mk : MemoryKind) (G : Shape) (shards : List Shape),
      shards.length = ds.length →
        (ConcreteSharding.Create ds mk G shards).wf = true) ∧
    (∀ s : ShardingI, s.wf = true → s.isOpaq = true ∨
      (∃ sh out, s.Disassemble sh = .ok out) ∨
      (∃ dsh out, s.DisassembleDyn dsh = .ok out)) ∧
    (∀ s : ShardingI, s.wf = true → s.isOpaq = true ∨ s.isConcrete = true ∨
      ∃ sh out, s.IndexDomains sh = .ok out) := by
  refine ⟨?_, ?_, ?_, ?_, ?_, ?_⟩
  · intro p ds mk h
    simp [ShardingParamSharding.Create, h]
  · intro p ds mk h
    simp [ShardingParamSharding.Create, h]
  · intro p ds mk s h
    simp only [ShardingParamSharding.Create] at h
    split at h
    · rename_i hcond
      simp only [Except.ok.injEq] at h
      subst h
      simpa [ShardingI.wf] using hcond
    · exact absurd h (by simp)
  · intro ds mk G shards h
    simpa [ConcreteSharding.Create, ShardingI.wf] using h
  · intro s hwf
    cases s with
    | singleDevice d mk => exact .inr (.inl ⟨⟨[]⟩, _, rfl⟩)
    | opaq ds mk => exact .inl rfl
    | concrete ds mk shp shards =>
        cases shp with
        | inl G =>
            cases shards with
            | inl l =>
                exact .inr (.inl ⟨G,
                  (l.zip ds).map (fun pr => (pr.1, ShardingI.singleDevice pr.2 mk)),
                  by simp [ShardingI.Disassemble]⟩)
            | inr l => simp [ShardingI.wf] at hwf
        | inr G =>
            cases shards with
            | inl l => simp [ShardingI.wf] at hwf
            | inr l =>
                exact .inr (.inr ⟨G,
                  (l.zip ds).map (fun pr => (pr.1, ShardingI.singleDevice pr.2 mk)),
                  by simp [ShardingI.DisassembleDyn]⟩)
    | concreteEven ds mk G S =>
        exact .inr (.inl ⟨G, ds.map (fun d => (S, ShardingI.singleDevice d mk)),
          by simp [ShardingI.Disassemble]⟩)
    | shardingParamS p ds mk =>
        exact .inr (.inl ⟨⟨p.dimShards⟩,
          (List.range ds.length).map (fun i =>
            ((paramTileDomain p ⟨p.dimShards⟩ i).shape,
              ShardingI.singleDevice (ds.getD i 0) mk)),
          by simp [ShardingI.Disassemble]⟩)
  · intro s hwf
    cases s with
    | singleDevice d mk => exact .inr (.inr ⟨⟨[]⟩, [⟨[], ⟨[]⟩⟩], rfl⟩)
    | opaq ds mk => exact .inl rfl
    | concrete ds mk shp shards => exact .inr (.inl rfl)
    | concreteEven ds mk G S =>
        exact .inr (.inr ⟨G, (List.range ds.length).map (evenTileDomain G S),
          by simp [ShardingI.IndexDomains]⟩)
    | shardingParamS p ds mk =>
        exact .inr (.inr ⟨⟨p.dimShards⟩,
          (List.range ds.length).map (paramTileDomain p ⟨p.dimShards⟩),
          by simp [ShardingI.IndexDomains]⟩)

/-- Witness for the amended C6 theorem: a matching `ShardingParam`
factory call (2 shards, replication 1, 2 devices) succeeds with the
constructed sharding. -/
theorem factory_validation_witness :
    ShardingParamSharding.Create ⟨[2], [0], 1⟩ [0, 1] ⟨none⟩ =
      .ok (.shardingParamS ⟨[2], [0], 1⟩ [0, 1] ⟨none⟩) :=
  factory_validation.1 ⟨[2], [0], 1⟩ [0, 1] ⟨none⟩ (by decide)

/-- C10: both `ConcreteSharding` factories store the global shape and the
shard-shape list in matching static/dynamic cases, so on every
constructed instance exactly one of `has_static_shape` and
`has_dynamic_shape` holds; on any well-formed concrete instance the two
accessors are complementary. -/
theorem concrete_shape_cases :
    (∀ (ds : DeviceList) (mk : MemoryKind) (G : Shape) (shards : List Shape),
      (ConcreteSharding.Create ds mk G shards).has_static_shape = true ∧
      (ConcreteSharding.Create ds mk G shards).has_dynamic_shape = false) ∧
    (∀ (ds : DeviceList) (mk : MemoryKind) (D : DynamicShape)
        (dshards : List DynamicShape),
      (ConcreteSharding.CreateDynamic ds mk D dshards).has_dynamic_shape = true ∧
      (ConcreteSharding.CreateDynamic ds mk D dshards).has_static_shape = false) ∧
    (∀ (ds : DeviceList) (mk : MemoryKind) (shp : Shape ⊕ DynamicShape)
        (shards : List Shape ⊕ List DynamicShape),
      (ShardingI.concrete ds mk shp shards).wf = true →
        (ShardingI.concrete ds mk shp shards).has_static_shape =
          !(ShardingI.concrete ds mk shp shards).has_dynamic_shape) := by
  refine ⟨fun ds mk G shards => ⟨rfl, rfl⟩, fun ds mk D dshards => ⟨rfl, rfl⟩, ?_⟩
  intro ds mk shp shards hwf
  cases shp <;> cases shards <;>
    first
      | rfl
      | simp [ShardingI.wf] at hwf

/-- Witness for C10: on a concrete well-formed static instance the two
accessors are complementary. -/
theorem concrete_shape_cases_witness :
    (ShardingI.concrete [0] ⟨none⟩ (.inl ⟨[]⟩) (.inl [⟨[]⟩])).has_static_shape =
      !(ShardingI.concrete [0] ⟨none⟩ (.inl ⟨[]⟩) (.inl [⟨[]⟩])).has_dynamic_shape :=
  concrete_shape_cases.2.2 [0] ⟨none⟩ (.inl ⟨[]⟩) (.inl [⟨[]⟩]) rfl

end Ifrt
